import Mathlib

/-!
Verification of the pycgtool core: shallow embedding of
`pycgtool/util.py` (`stat_moments`, `sliding`, `r_squared`) and
`pycgtool/functionalforms.py` (the `FunctionalForm` variants and the
GROMACS potential-type lookup), together with proofs of the spec's
claims about them.

Python floats are idealised as exact rationals (reals where the code
uses `math.sin`), extended with the IEEE non-finite markers `nan`,
`posInf` and `negInf`.  A Python-level exception is modelled as
`Option.none` / `Except.error`.  `util.py` executes
`np.seterr(all="raise")` at import time, so signalling floating-point
operations in module-level numpy code raise `FloatingPointError`;
NumPy's nan-aggregations (`np.nanmean`, `np.nanvar`) internally
suppress the divide/invalid status of their final division and are
documented to return NaN (with a RuntimeWarning) on empty slices.
-/

/-- A Python/NumPy double: a finite value (idealised as an exact
rational) or one of the non-finite markers. -/
inductive FVal where
  | finite (q : ℚ)
  | nan
  | posInf
  | negInf
deriving DecidableEq, Repr

/-- `np.isfinite`. -/
def FVal.isfinite : FVal → Bool
  | .finite _ => true
  | _ => false

/-- `np.isnan`. -/
def FVal.isNan : FVal → Bool
  | .nan => true
  | _ => false

/-- Whether the value is one of the two infinities. -/
def FVal.isInf : FVal → Bool
  | .posInf => true
  | .negInf => true
  | _ => false

/-- The rational payload of a finite value (junk `0` on the
non-finite markers; only ever applied after an `isfinite` filter). -/
def FVal.toRat : FVal → ℚ
  | .finite q => q
  | _ => 0

/-- The two population moments returned by `stat_moments`
(a 2-element numpy array `[mean, variance]` in the source). -/
structure Moments where
  mean : ℚ
  variance : ℚ
deriving DecidableEq, Repr

/-- `util.stat_moments(vals)` with its default `ignore_nan=True`:
filter the sample to its finite entries, accumulate their sum, divide
by the count for the mean, accumulate squared deviations in a second
pass, and divide the accumulator array by the count.  When the
filtered list is empty the division by the zero count raises
`FloatingPointError` (module-level `np.seterr(all="raise")`), which
the `except FloatingPointError` clause converts to `np.zeros(2)`. -/
def stat_moments (vals : List FVal) : Moments :=
  let vals_tmp := vals.filter FVal.isfinite
  if vals_tmp.length = 0 then ⟨0, 0⟩
  else
    let s : ℚ := vals_tmp.foldl (fun acc v => acc + v.toRat) 0
    let mean := s / (vals_tmp.length : ℚ)
    let ssd : ℚ := vals_tmp.foldl (fun acc v => acc + (v.toRat - mean) ^ 2) 0
    ⟨s / (vals_tmp.length : ℚ), ssd / (vals_tmp.length : ℚ)⟩

/-- The loop of `util.sliding` after the initial `current = next(it)`
succeeded: `prev` and `current` are the generator's loop variables and
the argument list is what remains of the iterator. -/
def slidingAux {α : Type} (prev : Option α) (current : α) :
    List α → List (Option α × α × Option α)
  | [] => [(prev, current, none)]
  | nxt :: rest => (prev, current, some nxt) :: slidingAux (some current) nxt rest

/-- `util.sliding(vals)`: yield `(previous, current, next)` windows
over the sequence.  On an empty sequence the initial
`current = next(it)` fails (`StopIteration`, surfaced as a
`RuntimeError` from the generator), modelled as `none`. -/
def sliding {α : Type} : List α → Option (List (Option α × α × Option α))
  | [] => none
  | x :: xs => some (slidingAux none x xs)

/-- `util.r_squared(ref, fit)`: `y_mean` is the mean of the reference
y-values (a `ZeroDivisionError` on an empty `ref` propagates,
modelled as `none`); `ss_reg`, `ss_res` and `ss_tot` are accumulated
over `zip(ref, fit)`; the function returns `ss_tot / ss_res`,
converting a `ZeroDivisionError` (zero `ss_res`) to `1`. -/
def r_squared (ref fit : List (ℚ × ℚ)) : Option ℚ :=
  if ref.length = 0 then none
  else
    let y_mean : ℚ := (ref.foldl (fun acc p => acc + p.2) (0 : ℚ)) / (ref.length : ℚ)
    let zipped := ref.zip fit
    let _ss_reg := zipped.foldl (fun acc p => acc + (p.1.2 - y_mean) ^ 2) 0
    let ss_res := zipped.foldl (fun acc p => acc + (p.1.2 - p.2.2) ^ 2) 0
    let ss_tot := zipped.foldl (fun acc p => acc + (p.2.2 - y_mean) ^ 2) 0
    if ss_res = 0 then some 1 else some (ss_tot / ss_res)

/-- IEEE addition on non-NaN extended values, as performed by
`np.sum` under the module-wide `np.seterr(all="raise")`:
`+inf + -inf` signals *invalid* and hence raises (`none`);
additions involving a quiet NaN propagate NaN silently. -/
def addFVal : FVal → FVal → Option FVal
  | .nan, _ => some .nan
  | _, .nan => some .nan
  | .finite a, .finite b => some (.finite (a + b))
  | .finite _, .posInf => some .posInf
  | .posInf, .finite _ => some .posInf
  | .finite _, .negInf => some .negInf
  | .negInf, .finite _ => some .negInf
  | .posInf, .posInf => some .posInf
  | .negInf, .negInf => some .negInf
  | .posInf, .negInf => none
  | .negInf, .posInf => none

/-- Left-to-right reduction of `addFVal` from an accumulator,
as in `np.sum`'s reduction starting from `0.0`. -/
def sumFValAux (acc : FVal) : List FVal → Option FVal
  | [] => some acc
  | v :: rest =>
    match addFVal acc v with
    | none => none
    | some acc2 => sumFValAux acc2 rest

/-- `np.sum` over a 1-d array. -/
def sumFVal (l : List FVal) : Option FVal := sumFValAux (.finite 0) l

/-- Division of an extended value by a positive count, as in NumPy's
`_divide_by_count` (only ever applied with a non-zero count here). -/
def divFValNat (s : FVal) (n : ℕ) : FVal :=
  match s with
  | .finite q => .finite (q / (n : ℚ))
  | .posInf => .posInf
  | .negInf => .negInf
  | .nan => .nan

/-- IEEE subtraction under `np.seterr(all="raise")`: `inf - inf`
(same sign) signals *invalid* and raises; NaN propagates quietly. -/
def subFVal : FVal → FVal → Option FVal
  | .nan, _ => some .nan
  | _, .nan => some .nan
  | .finite a, .finite b => some (.finite (a - b))
  | .finite _, .posInf => some .negInf
  | .finite _, .negInf => some .posInf
  | .posInf, .finite _ => some .posInf
  | .negInf, .finite _ => some .negInf
  | .posInf, .posInf => none
  | .negInf, .negInf => none
  | .posInf, .negInf => some .posInf
  | .negInf, .posInf => some .negInf

/-- Squaring an extended value (`x * x`); never signals. -/
def sqFVal : FVal → FVal
  | .finite a => .finite (a ^ 2)
  | .nan => .nan
  | .posInf => .posInf
  | .negInf => .posInf

/-- `np.nanmean` (the default `mean_func` of `FunctionalForm`),
modelled from NumPy's documented semantics: NaN entries are dropped;
for an empty slice the internal division is performed with the
divide/invalid status suppressed (`_divide_by_count` runs under
`np.errstate(invalid="ignore", divide="ignore")`), so the call warns
and returns NaN instead of raising; otherwise the plain `np.sum`
(which *does* honour the module's `np.seterr(all="raise")`) is
divided by the count. -/
def nanmean (vals : List FVal) : Option FVal :=
  let v := vals.filter (fun x => !x.isNan)
  if v.length = 0 then some .nan
  else (sumFVal v).map (fun s => divFValNat s v.length)

/-- Element-wise `np.subtract(arr, avg)`: the first raising
subtraction aborts the whole operation. -/
def subAll (avg : FVal) : List FVal → Option (List FVal)
  | [] => some []
  | x :: rest =>
    match subFVal x avg with
    | none => none
    | some d => (subAll avg rest).map (fun ds => d :: ds)

/-- `np.nanvar` with its default `ddof=0` (the default
`variance_func` of `FunctionalForm`), modelled from NumPy's
documented semantics: NaN entries are dropped; an empty slice warns
and returns NaN (internal divisions are status-suppressed); otherwise
the mean is formed, squared deviations are accumulated with plain
(signalling) arithmetic, and their sum is divided by the count. -/
def nanvar (vals : List FVal) : Option FVal :=
  let v := vals.filter (fun x => !x.isNan)
  if v.length = 0 then some .nan
  else do
    let s ← sumFVal v
    let avg := divFValNat s v.length
    let devs ← subAll avg v
    let tot ← sumFVal (devs.map sqFVal)
    return divFValNat tot v.length

/-- A `FunctionalForm` instance: the state set up by
`FunctionalForm.__init__`, which injects the mean and variance
estimators (an estimator may raise, hence `Option`). -/
structure FunctionalForm where
  mean_func : List FVal → Option FVal
  variance_func : List FVal → Option FVal

/-- An instance built with the default arguments
`mean_func=np.nanmean, variance_func=np.nanvar`. -/
def default_form : FunctionalForm := ⟨nanmean, nanvar⟩

/-- `FunctionalForm.eqm(self, values, temp)`: returns
`self._mean_func(values)`. -/
def FunctionalForm.eqm (ff : FunctionalForm) (values : List FVal) (temp : ℚ) :
    Option FVal :=
  ff.mean_func values

/-- `rt / var` where `rt` is the finite scalar `8.314 * temp / 1000.`
and `var` is the estimator's output (a numpy scalar, so the division
signals under `np.seterr(all="raise")`): division by `0.0` raises,
division by an infinity yields `0.0`, NaN propagates quietly. -/
def divQFVal (rt : ℚ) : FVal → Option FVal
  | .finite c => if c = 0 then none else some (.finite (rt / c))
  | .posInf => some (.finite 0)
  | .negInf => some (.finite 0)
  | .nan => some .nan

/-- `Harmonic.fconst(self, values, temp)`:
`rt = 8.314 * temp / 1000.; var = self._variance_func(values);
return rt / var`. -/
def Harmonic.fconst (ff : FunctionalForm) (values : List FVal) (temp : ℚ) :
    Option FVal := do
  let rt : ℚ := 8.314 * temp / 1000
  let var ← ff.variance_func values
  divQFVal rt var

/-- An extended value whose finite payload is a real number, needed
once `math.sin` enters the computation (`CosHarmonic`). -/
inductive RVal where
  | finite (x : ℝ)
  | nan
  | posInf
  | negInf

/-- Injection of the rational-payload values into the real-payload
ones. -/
noncomputable def FVal.toRVal : FVal → RVal
  | .finite q => .finite (q : ℝ)
  | .nan => .nan
  | .posInf => .posInf
  | .negInf => .negInf

/-- `math.sin`: raises `ValueError` ("math domain error") on an
infinite argument, returns NaN on NaN, and the exact sine on a finite
argument. -/
noncomputable def sinRVal : RVal → Option RVal
  | .finite x => some (.finite (Real.sin x))
  | .nan => some .nan
  | .posInf => none
  | .negInf => none

/-- Squaring (`** 2`) of an extended real value; never signals. -/
noncomputable def sqRVal : RVal → RVal
  | .finite x => .finite (x ^ 2)
  | .nan => .nan
  | .posInf => .posInf
  | .negInf => .posInf

/-- IEEE multiplication under `np.seterr(all="raise")` (the product
`sin(mean)**2 * var` mixes a Python float with a numpy scalar, so the
numpy rules apply): `0 * inf` signals *invalid* and raises; NaN
propagates quietly. -/
noncomputable def mulRVal : RVal → RVal → Option RVal
  | .nan, _ => some .nan
  | _, .nan => some .nan
  | .finite a, .finite b => some (.finite (a * b))
  | .finite a, .posInf =>
    if a = 0 then none else if 0 < a then some .posInf else some .negInf
  | .finite a, .negInf =>
    if a = 0 then none else if 0 < a then some .negInf else some .posInf
  | .posInf, .finite b =>
    if b = 0 then none else if 0 < b then some .posInf else some .negInf
  | .negInf, .finite b =>
    if b = 0 then none else if 0 < b then some .negInf else some .posInf
  | .posInf, .posInf => some .posInf
  | .posInf, .negInf => some .negInf
  | .negInf, .posInf => some .negInf
  | .negInf, .negInf => some .posInf

/-- `rt / d` for real-payload extended values, with the same
signalling rules as `divQFVal`. -/
noncomputable def divRRVal (rt : ℝ) : RVal → Option RVal
  | .finite c => if c = 0 then none else some (.finite (rt / c))
  | .posInf => some (.finite 0)
  | .negInf => some (.finite 0)
  | .nan => some .nan

/-- `CosHarmonic.fconst(self, values, temp)`:
`rt = 8.314 * temp / 1000.; mean = self.eqm(values, temp);
var = self._variance_func(values);
return rt / (math.sin(mean)**2 * var)`. -/
noncomputable def CosHarmonic.fconst (ff : FunctionalForm) (values : List FVal)
    (temp : ℚ) : Option RVal := do
  let rt : ℝ := 8.314 * temp / 1000
  let mean ← ff.eqm values temp
  let var ← ff.variance_func values
  let s ← sinRVal mean.toRVal
  let d ← mulRVal (sqRVal s) var.toRVal
  divRRVal rt d

/-- `MartiniDefaultLength.fconst`: the constant `1250.`. -/
def MartiniDefaultLength.fconst (ff : FunctionalForm) (values : List FVal)
    (temp : ℚ) : Option FVal :=
  some (.finite 1250)

/-- `MartiniDefaultAngle.fconst`: the constant `25.`. -/
def MartiniDefaultAngle.fconst (ff : FunctionalForm) (values : List FVal)
    (temp : ℚ) : Option FVal :=
  some (.finite 25)

/-- `MartiniDefaultDihedral.fconst`: the constant `50.`. -/
def MartiniDefaultDihedral.fconst (ff : FunctionalForm) (values : List FVal)
    (temp : ℚ) : Option FVal :=
  some (.finite 50)

/-- The five concrete subclasses of `FunctionalForm`. -/
inductive FFVariant where
  | Harmonic
  | CosHarmonic
  | MartiniDefaultLength
  | MartiniDefaultAngle
  | MartiniDefaultDihedral
deriving DecidableEq, Repr

/-- `cls.__name__` of each subclass. -/
def FFVariant.pyName : FFVariant → String
  | .Harmonic => "Harmonic"
  | .CosHarmonic => "CosHarmonic"
  | .MartiniDefaultLength => "MartiniDefaultLength"
  | .MartiniDefaultAngle => "MartiniDefaultAngle"
  | .MartiniDefaultDihedral => "MartiniDefaultDihedral"

/-- The `gromacs_type_ids` class attribute of each subclass: a
3-tuple of optional ids, `None` entries modelled as `none`. -/
def gromacs_type_ids : FFVariant → List (Option ℕ)
  | .Harmonic => [some 1, some 1, some 1]
  | .CosHarmonic => [none, some 2, none]
  | .MartiniDefaultLength => [some 1, none, none]
  | .MartiniDefaultAngle => [none, some 2, none]
  | .MartiniDefaultDihedral => [none, none, some 1]

/-- Python sequence indexing `l[i]` for a possibly negative `i`:
a negative index counts from the end; an index that is still out of
range after that adjustment raises `IndexError` (`none`). -/
def pyIndex {α : Type} (l : List α) (i : ℤ) : Option α :=
  let j : ℤ := if i < 0 then i + l.length else i
  if j < 0 then none else l.get? j.toNat

/-- The exceptions `gromacs_type_id_by_natoms` can raise: the
`IndexError` from tuple indexing (whose message does not mention the
class), and the explicit `TypeError` whose message names the
functional form and the atom count. -/
inductive ArityError where
  | indexError
  | typeError (formName : String) (natoms : ℤ)
deriving DecidableEq, Repr

/-- The message of the explicit `TypeError` raised by
`gromacs_type_id_by_natoms`. -/
def arityErrorMessage (formName : String) (natoms : ℤ) : String :=
  "The functional form " ++ formName ++
    " does not have a defined GROMACS potential type when used with " ++
    toString natoms ++ " atoms."

/-- `FunctionalForm.gromacs_type_id_by_natoms(cls, natoms)`:
`tipe = cls.gromacs_type_ids[natoms - 2]` (Python tuple indexing, so
negative indices wrap from the end and a genuinely out-of-range index
raises `IndexError`); a `None` entry raises the explicit `TypeError`;
otherwise the entry is returned. -/
def gromacs_type_id_by_natoms (form : FFVariant) (natoms : ℤ) :
    Except ArityError ℕ :=
  match pyIndex (gromacs_type_ids form) (natoms - 2) with
  | none => .error .indexError
  | some none => .error (.typeError form.pyName natoms)
  | some (some tipe) => .ok tipe

/-- The corrected contract of `gromacs_type_id_by_natoms`, stated
from the amended claim's words: because Python tuple indexing lets a
negative index count from the end, the lookup raises `IndexError`
exactly when `natoms < -1` or `natoms > 4`; inside that range the
entry consulted is `gromacsTypeIds[natoms - 2]` with wrap-around
(index `natoms + 1` when `natoms < 2`), an absent entry raises the
`TypeError` naming the variant and the atom count, and a present
entry is returned. -/
def typeIdAmendedSpec (form : FFVariant) (natoms : ℤ) : Except ArityError ℕ :=
  if natoms < -1 ∨ 4 < natoms then .error .indexError
  else
    match (gromacs_type_ids form).getD
        (if natoms < 2 then natoms + 1 else natoms - 2).toNat none with
    | none => .error (.typeError form.pyName natoms)
    | some t => .ok t


/-! ## Helper lemmas -/

/-- A left fold that only adds `f x` at each step is the initial
accumulator plus the sum of the mapped list. -/
theorem foldl_add_map {α : Type} (f : α → ℚ) :
    ∀ (l : List α) (a : ℚ),
      l.foldl (fun acc x => acc + f x) a = a + (l.map f).sum := by
  intro l
  induction l with
  | nil => intro a; simp
  | cons x xs ih =>
    intro a
    simp only [List.foldl_cons, List.map_cons, List.sum_cons, ih (a + f x)]
    ring

/-- The sliding-window loop yields one triple per element of
`current :: rest`. -/
theorem slidingAux_length {α : Type} :
    ∀ (rest : List α) (prev : Option α) (cur : α),
      (slidingAux prev cur rest).length = rest.length + 1 := by
  intro rest
  induction rest with
  | nil => intro prev cur; rfl
  | cons nxt r ih => intro prev cur; simp [slidingAux, ih]

/-- The `i`-th triple of the sliding-window loop over
`m = current :: rest`: its middle is `m[i]`, its left neighbour is
the loop's incoming `prev` at `i = 0` and `m[i-1]` afterwards, and
its right neighbour is `m[i+1]` (absent at the end). -/
theorem slidingAux_get {α : Type} :
    ∀ (rest : List α) (prev : Option α) (cur : α) (i : ℕ),
      (slidingAux prev cur rest).get? i =
        ((cur :: rest).get? i).map
          (fun x => ((if i = 0 then prev else (cur :: rest).get? (i - 1)), x,
            (cur :: rest).get? (i + 1))) := by
  intro rest
  induction rest with
  | nil =>
    intro prev cur i
    match i with
    | 0 => rfl
    | Nat.succ k => cases k <;> rfl
  | cons nxt r ih =>
    intro prev cur i
    match i with
    | 0 => rfl
    | Nat.succ k =>
      show (slidingAux (some cur) nxt r).get? k = _
      rw [ih]
      cases k with
      | zero => rfl
      | succ j => rfl

/-- The sliding-window loop always yields at least one triple. -/
theorem slidingAux_ne_nil {α : Type} (rest : List α) (prev : Option α)
    (cur : α) : slidingAux prev cur rest ≠ [] := by
  cases rest <;> simp [slidingAux]

/-- Summing the squared y-residuals of a list zipped with itself
gives zero. -/
theorem zip_self_residual_sum :
    ∀ l : List (ℚ × ℚ), ((l.zip l).map (fun p => (p.1.2 - p.2.2) ^ 2)).sum = 0 := by
  intro l
  induction l with
  | nil => rfl
  | cons x xs ih => simp [List.zip_cons_cons, ih]

/-- `np.sum` over finite values never raises and returns the exact
sum added to the incoming accumulator. -/
theorem sumFValAux_finite :
    ∀ (l : List FVal) (a : ℚ), (∀ v ∈ l, v.isfinite) →
      sumFValAux (.finite a) l = some (.finite (a + (l.map FVal.toRat).sum)) := by
  intro l
  induction l with
  | nil => intro a _; simp [sumFValAux]
  | cons x xs ih =>
    intro a h
    have hx : x.isfinite := h x (List.mem_cons_self x xs)
    have htail : ∀ v ∈ xs, v.isfinite :=
      fun v hv => h v (List.mem_cons_of_mem x hv)
    cases x with
    | finite q =>
      have := ih (a + q) htail
      simp only [sumFValAux, addFVal, this, List.map_cons, List.sum_cons,
        FVal.toRat]
      norm_num [add_assoc]
    | nan => simp [FVal.isfinite] at hx
    | posInf => simp [FVal.isfinite] at hx
    | negInf => simp [FVal.isfinite] at hx

/-- Every subclass's `gromacs_type_ids` tuple has exactly three
entries. -/
theorem gromacs_type_ids_length (form : FFVariant) :
    (gromacs_type_ids form).length = 3 := by
  cases form <;> rfl

/-! ## Claim theorems -/

/-- C5: for an input of length `n ≥ 1`, `sliding` succeeds and
produces exactly `n` triples, the `i`-th being
`(element[i-1] or absent, element[i], element[i+1] or absent)` —
the first triple's `previous` and the last triple's `next` are
absent because the neighbouring lookup is out of range there — and
on a singleton `[x]` it produces exactly `[(absent, x, absent)]`. -/
theorem sliding_triples_spec :
    (∀ l : List ℚ, l ≠ [] → ∃ ts, sliding l = some ts) ∧
    (∀ (l : List ℚ) (ts : List (Option ℚ × ℚ × Option ℚ)),
      sliding l = some ts →
        ts.length = l.length ∧
        ∀ i : ℕ, ts.get? i =
          (l.get? i).map
            (fun x => ((if i = 0 then none else l.get? (i - 1)), x,
              l.get? (i + 1)))) ∧
    (∀ x : ℚ, sliding [x] = some [(none, x, none)]) := by
  refine ⟨?_, ?_, ?_⟩
  · intro l hl
    match l, hl with
    | x :: xs, _ => exact ⟨slidingAux none x xs, rfl⟩
  · intro l ts h
    match l, h with
    | x :: xs, h =>
      have hts : ts = slidingAux none x xs := by
        simpa [sliding] using h.symm
      subst hts
      constructor
      · simp [slidingAux_length]
      · intro i
        exact slidingAux_get xs none x i
  · intro x; rfl

/-- C5 witness: the general theorem applied to the concrete input
`[1, 2]` at index `1`. -/
theorem sliding_triples_spec_witness :
    [((none : Option ℚ), (1 : ℚ), some (2 : ℚ)),
        (some 1, 2, none)].length = [(1 : ℚ), 2].length ∧
      [((none : Option ℚ), (1 : ℚ), some (2 : ℚ)),
        (some 1, 2, none)].get? 1 =
        ([(1 : ℚ), 2].get? 1).map
          (fun x => ((if 1 = 0 then none else [(1 : ℚ), 2].get? 0), x,
            [(1 : ℚ), 2].get? 2)) := by
  have h := sliding_triples_spec.2.1 [(1 : ℚ), 2]
    [((none : Option ℚ), (1 : ℚ), some (2 : ℚ)), (some 1, 2, none)]
    (by decide)
  exact ⟨h.1, h.2 1⟩

/-- C10: on the empty sequence `sliding` fails when consumed (the
initial `next(it)` raises), and a successfully produced sequence of
triples is never empty. -/
theorem sliding_empty_error :
    sliding ([] : List ℚ) = none ∧
      ∀ (l : List ℚ) (ts : List (Option ℚ × ℚ × Option ℚ)),
        sliding l = some ts → ts ≠ [] := by
  refine ⟨rfl, ?_⟩
  intro l ts h
  match l, h with
  | x :: xs, h =>
    have hts : ts = slidingAux none x xs := by
      simpa [sliding] using h.symm
    subst hts
    exact slidingAux_ne_nil xs none x

/-- C10 witness: the nonemptiness part applied to the concrete input
`[5]`. -/
theorem sliding_empty_error_witness :
    [((none : Option ℚ), (5 : ℚ), (none : Option ℚ))] ≠ [] :=
  sliding_empty_error.2 [(5 : ℚ)]
    [((none : Option ℚ), (5 : ℚ), (none : Option ℚ))] (by decide)

/-- C3: a sample that is empty or whose entries are all non-finite
filters to the empty list, so the zero-count division raises a
`FloatingPointError` that `stat_moments` catches locally, returning
the degenerate `{mean 0, variance 0}` instead of propagating an
exception; in particular `stat_moments [] = {0, 0}`. -/
theorem stat_moments_degenerate :
    (∀ l : List FVal, (∀ v ∈ l, v.isfinite = false) →
      stat_moments l = ⟨0, 0⟩) ∧
    stat_moments ([] : List FVal) = ⟨0, 0⟩ := by
  constructor
  · intro l h
    have hf : l.filter FVal.isfinite = [] := by
      simp only [List.filter_eq_nil_iff]
      intro v hv
      simp [h v hv]
    simp [stat_moments, hf]
  · rfl

/-- C3 witness: the general theorem applied to the all-non-finite
sample `[NaN, +inf]`. -/
theorem stat_moments_degenerate_witness :
    stat_moments [FVal.nan, FVal.posInf] = ⟨0, 0⟩ :=
  stat_moments_degenerate.1 [FVal.nan, FVal.posInf] (by decide)

/-- C7: with non-finite entries ignored, `stat_moments` is invariant
under deleting the non-finite entries beforehand (filtering is
idempotent); in particular
`stat_moments [1, 2, NaN, 3] = stat_moments [1, 2, 3]`. -/
theorem stat_moments_filter_invariant :
    (∀ l : List FVal,
      stat_moments l = stat_moments (l.filter FVal.isfinite)) ∧
    stat_moments [FVal.finite 1, FVal.finite 2, FVal.nan, FVal.finite 3] =
      stat_moments [FVal.finite 1, FVal.finite 2, FVal.finite 3] := by
  constructor
  · intro l
    simp [stat_moments, List.filter_filter]
  · rfl

/-- C2: on a non-empty all-finite sample, `stat_moments` returns the
arithmetic mean (sum divided by count, computed sum-then-divide) and
the population variance (sum of squared deviations from that mean
divided by the count, not count − 1); consequently the returned
variance is non-negative. -/
theorem stat_moments_finite_spec (l : List FVal)
    (hfin : ∀ v ∈ l, v.isfinite) (hne : l ≠ []) :
    stat_moments l =
      ⟨(l.map FVal.toRat).sum / (l.length : ℚ),
        (l.map
          (fun v => (v.toRat - (l.map FVal.toRat).sum / (l.length : ℚ)) ^ 2)).sum /
          (l.length : ℚ)⟩ ∧
      0 ≤ (stat_moments l).variance := by
  have hf : l.filter FVal.isfinite = l := List.filter_eq_self.mpr hfin
  have hlen : l.length ≠ 0 := fun h => hne (List.length_eq_zero.mp h)
  have hmain : stat_moments l =
      ⟨(l.map FVal.toRat).sum / (l.length : ℚ),
        (l.map
          (fun v => (v.toRat - (l.map FVal.toRat).sum / (l.length : ℚ)) ^ 2)).sum /
          (l.length : ℚ)⟩ := by
    simp only [stat_moments, hf, hlen, if_false, foldl_add_map, zero_add,
      ite_false]
  refine ⟨hmain, ?_⟩
  rw [hmain]
  have hsum : 0 ≤ (l.map
      (fun v => (v.toRat - (l.map FVal.toRat).sum / (l.length : ℚ)) ^ 2)).sum :=
    List.sum_nonneg (by
      intro x hx
      obtain ⟨v, _, rfl⟩ := List.mem_map.mp hx
      positivity)
  have hlen0 : (0 : ℚ) ≤ (l.length : ℚ) := by positivity
  exact div_nonneg hsum hlen0

/-- C2 witness: the general theorem applied to the sample
`[1, 2, 3]`, whose mean is `2` and population variance `2/3`. -/
theorem stat_moments_finite_spec_witness :
    stat_moments [FVal.finite 1, FVal.finite 2, FVal.finite 3] =
      ⟨([FVal.finite 1, FVal.finite 2, FVal.finite 3].map FVal.toRat).sum / 3,
        ([FVal.finite 1, FVal.finite 2, FVal.finite 3].map
          (fun v => (v.toRat -
            ([FVal.finite 1, FVal.finite 2, FVal.finite 3].map FVal.toRat).sum / 3) ^ 2)).sum /
          3⟩ ∧
      0 ≤ (stat_moments [FVal.finite 1, FVal.finite 2, FVal.finite 3]).variance :=
  stat_moments_finite_spec [FVal.finite 1, FVal.finite 2, FVal.finite 3]
    (by decide) (by decide)

/-- C6: on a non-empty reference list, `r_squared` computes the mean
of all reference y-values, accumulates the residual and total sums of
squares over the zipped pairs only, and returns `ssTot / ssRes`
except that a zero `ssRes` yields exactly `1`; identical reference
and fit lists therefore yield exactly `1`. -/
theorem r_squared_spec :
    (∀ ref fit : List (ℚ × ℚ), ref ≠ [] →
      r_squared ref fit =
        some
          (if ((ref.zip fit).map (fun p => (p.1.2 - p.2.2) ^ 2)).sum = 0 then 1
           else
             ((ref.zip fit).map
               (fun p => (p.2.2 - (ref.map Prod.snd).sum / (ref.length : ℚ)) ^ 2)).sum /
               ((ref.zip fit).map (fun p => (p.1.2 - p.2.2) ^ 2)).sum)) ∧
    ∀ ref : List (ℚ × ℚ), ref ≠ [] → r_squared ref ref = some 1 := by
  have hmain : ∀ ref fit : List (ℚ × ℚ), ref ≠ [] →
      r_squared ref fit =
        some
          (if ((ref.zip fit).map (fun p => (p.1.2 - p.2.2) ^ 2)).sum = 0 then 1
           else
             ((ref.zip fit).map
               (fun p => (p.2.2 - (ref.map Prod.snd).sum / (ref.length : ℚ)) ^ 2)).sum /
               ((ref.zip fit).map (fun p => (p.1.2 - p.2.2) ^ 2)).sum) := by
    intro ref fit hne
    have hlen : ref.length ≠ 0 := fun h => hne (List.length_eq_zero.mp h)
    simp only [r_squared, hlen, if_false, foldl_add_map, zero_add, ite_false]
    rw [apply_ite some]
  refine ⟨hmain, ?_⟩
  intro ref hne
  rw [hmain ref ref hne, zip_self_residual_sum, if_pos rfl]

/-- C6 witness: the general theorem applied to the concrete
reference `[(1,2),(3,5)]` with fit `[(1,2),(3,4)]` (giving
`ssRes = 1`, `ssTot = 5/2`) and to identical reference and fit. -/
theorem r_squared_spec_witness :
    r_squared [(1, 2), (3, 5)] [(1, 2), (3, 4)] =
      some
        (if (([((1 : ℚ), (2 : ℚ)), (3, 5)].zip [((1 : ℚ), (2 : ℚ)), (3, 4)]).map
            (fun p => (p.1.2 - p.2.2) ^ 2)).sum = 0 then 1
         else
           (([((1 : ℚ), (2 : ℚ)), (3, 5)].zip [((1 : ℚ), (2 : ℚ)), (3, 4)]).map
             (fun p => (p.2.2 -
               ([((1 : ℚ), (2 : ℚ)), (3, 5)].map Prod.snd).sum /
                 (([((1 : ℚ), (2 : ℚ)), (3, 5)].length : ℕ) : ℚ)) ^ 2)).sum /
             (([((1 : ℚ), (2 : ℚ)), (3, 5)].zip [((1 : ℚ), (2 : ℚ)), (3, 4)]).map
               (fun p => (p.1.2 - p.2.2) ^ 2)).sum) ∧
      r_squared [(1, 2), (3, 5)] [(1, 2), (3, 5)] = some 1 :=
  ⟨r_squared_spec.1 [(1, 2), (3, 5)] [(1, 2), (3, 4)] (by decide),
    r_squared_spec.2 [(1, 2), (3, 5)] (by decide)⟩

/-- C4 counterexample: the claim says every atom count outside
{2,3,4} raises, but Python's negative tuple indexing wraps around:
`natoms = 1` reads entry `-1` (the dihedral slot) and `natoms = 0`
reads entry `-2` (the angle slot), so `Harmonic` with 1 atom returns
`1` and `CosHarmonic` with 0 atoms returns `2` instead of raising. -/
theorem gromacs_type_id_negative_wrap :
    gromacs_type_id_by_natoms FFVariant.Harmonic 1 = Except.ok 1 ∧
      gromacs_type_id_by_natoms FFVariant.CosHarmonic 0 = Except.ok 2 :=
  ⟨rfl, rfl⟩

/-- C4 (amended): `gromacs_type_id_by_natoms` raises `IndexError`
iff `atomCount` is outside {-1, …, 4} (Python's negative indices wrap
from the end of the 3-tuple); within that range it raises the
`TypeError` naming the variant and the atom count iff the
wrap-indexed entry is absent, and returns the entry otherwise.  In
particular the claim's table rows hold: `Harmonic` gives id 1 for
2, 3 and 4 atoms, `CosHarmonic` gives id 2 for 3 atoms and raises for
2 atoms. -/
theorem gromacs_type_id_amended :
    (∀ (form : FFVariant) (natoms : ℤ),
      gromacs_type_id_by_natoms form natoms = typeIdAmendedSpec form natoms) ∧
    gromacs_type_id_by_natoms FFVariant.Harmonic 2 = Except.ok 1 ∧
    gromacs_type_id_by_natoms FFVariant.Harmonic 3 = Except.ok 1 ∧
    gromacs_type_id_by_natoms FFVariant.Harmonic 4 = Except.ok 1 ∧
    gromacs_type_id_by_natoms FFVariant.CosHarmonic 3 = Except.ok 2 ∧
    gromacs_type_id_by_natoms FFVariant.CosHarmonic 2 =
      Except.error (ArityError.typeError "CosHarmonic" 2) := by
  refine ⟨?_, rfl, rfl, rfl, rfl, rfl⟩
  intro form natoms
  by_cases hlo : natoms < -1
  · have h1 : natoms - 2 < 0 := by omega
    have h2 : natoms - 2 + ((gromacs_type_ids form).length : ℤ) < 0 := by
      rw [gromacs_type_ids_length]; omega
    simp only [gromacs_type_id_by_natoms, pyIndex, h1, if_true, h2, if_true,
      typeIdAmendedSpec, ite_true]
    rw [if_pos (Or.inl hlo)]
  · by_cases hhi : 4 < natoms
    · have h1 : ¬natoms - 2 < 0 := by omega
      have h2 : ¬(natoms - 2 : ℤ) < 0 := by omega
      have h3 : (gromacs_type_ids form).length ≤ (natoms - 2).toNat := by
        rw [gromacs_type_ids_length]; omega
      simp only [gromacs_type_id_by_natoms, pyIndex, h1, if_false, h2,
        ite_false, List.get?_eq_none.mpr h3, typeIdAmendedSpec]
      rw [if_pos (Or.inr hhi)]
    · have hr1 : -1 ≤ natoms := by omega
      have hr2 : natoms ≤ 4 := by omega
      interval_cases natoms <;> cases form <;> rfl

/-- Evaluation of the default variance estimator `np.nanvar` on the
concrete sample `[1, 2, 3]`: population variance `2/3`. -/
theorem nanvar_123 :
    nanvar [FVal.finite 1, FVal.finite 2, FVal.finite 3] =
      some (FVal.finite (2 / 3)) := by
  simp only [nanvar, FVal.isNan, List.filter, sumFVal, sumFValAux, addFVal,
    divFValNat, subAll, subFVal, sqFVal]
  norm_num [sumFValAux, addFVal, sqFVal, divFValNat]

/-- Evaluation of the default estimators on the concrete sample
`[1, 2]`: mean `3/2` and population variance `1/4`. -/
theorem nan_estimators_12 :
    nanmean [FVal.finite 1, FVal.finite 2] = some (FVal.finite (3 / 2)) ∧
      nanvar [FVal.finite 1, FVal.finite 2] = some (FVal.finite (1 / 4)) := by
  constructor
  · simp only [nanmean, FVal.isNan, List.filter, sumFVal, sumFValAux, addFVal,
      divFValNat]
    norm_num
  · simp only [nanvar, FVal.isNan, List.filter, sumFVal, sumFValAux, addFVal,
      divFValNat, subAll, subFVal, sqFVal]
    norm_num [sumFValAux, addFVal, sqFVal, divFValNat]

/-- C1: with any injected estimators, `Harmonic.fconst` returns
`(8.314·T/1000) / variance` whenever the variance estimate is finite
and strictly positive, and `CosHarmonic.fconst` returns
`(8.314·T/1000) / (sin(mean)² · variance)` whenever additionally the
mean estimate is finite with non-vanishing sine; with the default
(population-moment) estimators, `fconst([1,2,3], 300)` for `Harmonic`
is `3.7413`, within `10⁻³` of the claimed `3.741`. -/
theorem fconst_inversion_formulas :
    (∀ (ff : FunctionalForm) (values : List FVal) (temp v : ℚ),
      ff.variance_func values = some (.finite v) → 0 < v →
      Harmonic.fconst ff values temp =
        some (.finite (8.314 * temp / 1000 / v))) ∧
    (∀ (ff : FunctionalForm) (values : List FVal) (temp m v : ℚ),
      ff.mean_func values = some (.finite m) →
      ff.variance_func values = some (.finite v) → 0 < v →
      Real.sin (m : ℝ) ≠ 0 →
      CosHarmonic.fconst ff values temp =
        some (.finite ((8.314 * temp / 1000 : ℝ) /
          (Real.sin (m : ℝ) ^ 2 * (v : ℝ))))) ∧
    (Harmonic.fconst default_form [FVal.finite 1, FVal.finite 2, FVal.finite 3]
        300 = some (.finite (37413 / 10000)) ∧
      |(37413 / 10000 : ℚ) - 3741 / 1000| < 1 / 1000) := by
  have hharm : ∀ (ff : FunctionalForm) (values : List FVal) (temp v : ℚ),
      ff.variance_func values = some (.finite v) → 0 < v →
      Harmonic.fconst ff values temp =
        some (.finite (8.314 * temp / 1000 / v)) := by
    intro ff values temp v hvar hv
    simp [Harmonic.fconst, hvar, divQFVal, hv.ne']
  refine ⟨hharm, ?_, ?_, ?_⟩
  · intro ff values temp m v hmean hvar hv hsin
    have hd : Real.sin (m : ℝ) ^ 2 * (v : ℝ) ≠ 0 := by
      have hv' : (0 : ℝ) < (v : ℝ) := by exact_mod_cast hv
      positivity
    simp [CosHarmonic.fconst, FunctionalForm.eqm, hmean, hvar, FVal.toRVal,
      sinRVal, sqRVal, mulRVal, divRRVal, hd]
  · rw [hharm default_form [FVal.finite 1, FVal.finite 2, FVal.finite 3] 300
      (2 / 3) nanvar_123 (by norm_num)]
    norm_num
  · rw [show (37413 / 10000 : ℚ) - 3741 / 1000 = 3 / 10000 by norm_num,
      abs_of_pos (by norm_num)]
    norm_num

/-- C1 witness: the two formula statements applied at concrete
inputs — `Harmonic` with the default estimators on `[1,2,3]` at
`T = 300` (variance `2/3`), and `CosHarmonic` with the default
estimators on `[1,2]` at `T = 300` (mean `3/2`, variance `1/4`,
`sin(3/2) ≠ 0` because `0 < 3/2 < π`). -/
theorem fconst_inversion_formulas_witness :
    Harmonic.fconst default_form [FVal.finite 1, FVal.finite 2, FVal.finite 3]
        300 = some (.finite (8.314 * 300 / 1000 / (2 / 3))) ∧
      CosHarmonic.fconst default_form [FVal.finite 1, FVal.finite 2] 300 =
        some (.finite ((8.314 * 300 / 1000 : ℝ) /
          (Real.sin ((3 / 2 : ℚ) : ℝ) ^ 2 * ((1 / 4 : ℚ) : ℝ)))) := by
  have hsin : Real.sin ((3 / 2 : ℚ) : ℝ) ≠ 0 := by
    have h32 : ((3 / 2 : ℚ) : ℝ) = (3 / 2 : ℝ) := by norm_num
    rw [h32]
    have hpos : (0 : ℝ) < Real.sin (3 / 2) :=
      Real.sin_pos_of_pos_of_lt_pi (by norm_num)
        (lt_trans (by norm_num) Real.pi_gt_three)
    exact ne_of_gt hpos
  exact ⟨fconst_inversion_formulas.1 default_form
      [FVal.finite 1, FVal.finite 2, FVal.finite 3] 300 (2 / 3) nanvar_123
      (by norm_num),
    fconst_inversion_formulas.2.1 default_form [FVal.finite 1, FVal.finite 2]
      300 (3 / 2) (1 / 4) nan_estimators_12.1 nan_estimators_12.2
      (by norm_num) hsin⟩

/-- C8 counterexample: on the empty sample the force-constant
computation does *not* raise: the default estimators
(`np.nanmean` / `np.nanvar`, not `stat_moments`) return NaN on an
empty slice, and dividing `R·T` by NaN propagates NaN quietly, so
both `fconst` calls return NaN instead of raising a numeric-domain
error. -/
theorem empty_sample_fconst_no_raise :
    Harmonic.fconst default_form [] 300 ≠ none ∧
      CosHarmonic.fconst default_form [] 300 ≠ none ∧
      Harmonic.fconst default_form [] 300 = some FVal.nan := by
  have h1 : Harmonic.fconst default_form [] 300 = some FVal.nan := rfl
  have h2 : CosHarmonic.fconst default_form [] 300 = some RVal.nan := rfl
  refine ⟨?_, ?_, h1⟩
  · rw [h1]
    exact Option.some_ne_none _
  · rw [h2]
    exact Option.some_ne_none _

/-- C8 (amended): for an empty coordinate sample the `stat_moments`
computation indeed returns the degenerate `{0, 0}` without raising,
but the Harmonic/CosHarmonic force-constant path does not divide
`R·T` by a zero variance: the variants' default estimators are
`np.nanmean`/`np.nanvar`, which return NaN on the empty slice (their
internal division suppresses the error status), and `fconst` then
returns NaN without raising, at every temperature. -/
theorem empty_sample_fconst_nan (temp : ℚ) :
    stat_moments ([] : List FVal) = ⟨0, 0⟩ ∧
      Harmonic.fconst default_form [] temp = some FVal.nan ∧
      CosHarmonic.fconst default_form [] temp = some RVal.nan :=
  ⟨rfl, rfl, rfl⟩

/-- C9 counterexample: the default `eqm` is `np.nanmean`, not the
mean of `stat_moments`: on the empty sample `eqm` returns NaN while
`stat_moments` returns the degenerate mean `0`. -/
theorem eqm_default_ne_stat_moments_mean :
    FunctionalForm.eqm default_form [] 300 ≠
      some (.finite (stat_moments ([] : List FVal)).mean) := by
  decide

/-- C9 (amended): the default `eqm` (`np.nanmean`) coincides with
the `stat_moments` population mean on every sample that contains at
least one finite entry and no infinities (NaN entries are allowed,
both drop them); the two differ on the empty sample and on samples
containing infinities. -/
theorem eqm_default_eq_stat_moments_mean (values : List FVal) (temp : ℚ)
    (hnoinf : ∀ v ∈ values, v.isInf = false)
    (hfin : ∃ v ∈ values, v.isfinite) :
    FunctionalForm.eqm default_form values temp =
      some (.finite (stat_moments values).mean) := by
  have hfilter : values.filter (fun x => !x.isNan) =
      values.filter FVal.isfinite := by
    apply List.filter_congr
    intro v hv
    cases v with
    | finite q => rfl
    | nan => rfl
    | posInf => simpa [FVal.isInf] using hnoinf _ hv
    | negInf => simpa [FVal.isInf] using hnoinf _ hv
  obtain ⟨w, hw, hwfin⟩ := hfin
  have hmem : w ∈ values.filter FVal.isfinite :=
    List.mem_filter.mpr ⟨hw, hwfin⟩
  have hne : values.filter FVal.isfinite ≠ [] := by
    intro h
    rw [h] at hmem
    exact List.not_mem_nil w hmem
  have hlen : (values.filter FVal.isfinite).length ≠ 0 :=
    fun h => hne (List.length_eq_zero.mp h)
  have hallfin : ∀ v ∈ values.filter FVal.isfinite, v.isfinite :=
    fun v hv => List.of_mem_filter hv
  have hsum := sumFValAux_finite (values.filter FVal.isfinite) 0 hallfin
  simp only [FunctionalForm.eqm, default_form, nanmean, hfilter, hlen,
    if_false, sumFVal, hsum, Option.map_some, divFValNat, stat_moments,
    foldl_add_map, zero_add, ite_false]
  rfl

/-- C9 witness: the amended theorem applied to the concrete sample
`[1, NaN, 2]`, where both sides give the mean `3/2` of the finite
entries. -/
theorem eqm_default_eq_stat_moments_mean_witness :
    FunctionalForm.eqm default_form [FVal.finite 1, FVal.nan, FVal.finite 2]
        300 =
      some (.finite
        (stat_moments [FVal.finite 1, FVal.nan, FVal.finite 2]).mean) :=
  eqm_default_eq_stat_moments_mean [FVal.finite 1, FVal.nan, FVal.finite 2]
    300 (by decide) (by decide)
